import Mathlib

set_option maxRecDepth 8000

/-!
Shallow embedding of `flexible_quant/flexible_quantized_cache.py`
(class `FlexibleQuantizedCache` and the quanto backend
`FlexibleQuantoQuantizedCache`).

Modelling conventions:

* A key/value tensor block is modelled along its sequence dimension
  (`dim = -2`): a block becomes a `List α` of per-position slabs; the batch,
  head (in the non-per-head path) and feature dimensions are folded into the
  abstract element type `α`.  In per-head mode the (already transposed) block
  is a `List (List α)` — heads outer, sequence positions inner; the final
  `torch.stack`/`transpose` pair of the source cancels against the initial
  transpose and is not represented.

* Modelled from the spec: the concrete quantizer backends
  (`vanilla_quantizer.py`, optimum-quanto, HQQ) are not part of the sources;
  per spec §4.1 every backend's quantize→dequantize round trip "preserves
  shape and position ordering exactly" and is lossy only in the stored
  values.  The round trip is therefore modelled as an elementwise distortion
  function `qf nbits axis : α → α`: `_quantize` stores the already-distorted
  list and `_dequantize` is then the identity.

* The `torch.zeros(0)` placeholder that the source uses for an empty
  residual has `dim() == 1`; the merge condition (`.dim() == 4`, or
  `.dim() == 3` per head) distinguishes it from a genuine residual tensor,
  and `torch.cat` skips such 1-dim empty tensors.  The residual is therefore
  an `Option (List α)`: `none` is the placeholder, `some r` is a real
  (4-dim, resp. 3-dim) residual holding positions `r`.

* Python exceptions become an `Except` result; mutations performed before a
  `raise` (the `_seen_tokens` increment of line 166) persist in the returned
  state, exactly as they do on the Python object.
-/

/-- Elementwise model of a backend quantize→dequantize round trip, taking the
`nbits` and `axis` arguments that `_quantize` receives. -/
structure QuantCtx (α : Type) where
  qf : Int → Int → α → α

/-- Mirror of the `FlexibleQuantizedCacheConfig` fields that
`FlexibleQuantizedCache` reads (lines 136-152).  `compute_dtype` and `device`
only affect tensor placement and are not represented; the per-layer table maps
a layer index to its `(nbits_key, nbits_value)` pair and the per-head table
maps a layer index to the per-head list of such pairs. -/
structure FQConfig where
  nbits : Int
  nbitsKey : Int
  nbitsValue : Int
  axisKey : Int
  axisValue : Int
  qGroupSize : Int
  asym : Bool
  residualLength : Nat
  forceQuant : Bool
  perLayerQuant : Bool
  perLayerConfig : List (Int × Int)
  perHeadQuant : Bool
  perHeadConfig : List (List (Int × Int))
  deriving DecidableEq

/-- Model of `self.nbits_key = nbits_key if nbits_key else nbits` in
`FlexibleQuantizedCacheConfig.__init__` (line 89): Python truthiness keeps any
nonzero `nbits_key`. -/
def resolvedNbitsKey (nbits nbitsKey : Int) : Int :=
  if nbitsKey ≠ 0 then nbitsKey else nbits

/-- Python exceptions raised by `FlexibleQuantizedCache.update`:
`layerSkip` is the `ValueError` of line 168, `headCountMismatch` the
`ValueError` of line 224, the `missing*` cases are the `KeyError`s of the
per-layer / per-head table lookups, and `assertFailed` the `assert` of
line 222. -/
inductive CacheErr
  | layerSkip
  | headCountMismatch
  | missingLayerConfig
  | missingHeadConfig
  | assertFailed
  deriving DecidableEq

/-- One layer's (or, per head, one head's) storage: the quantized tier
(`_quantized_key_cache` / `_quantized_value_cache`, kept in dequantized form
since dequantization is modelled as the identity) and the full-precision
residual (`key_cache` / `value_cache`, `none` being the `torch.zeros(0)`
placeholder). -/
structure QEntryF (α : Type) where
  quantK : List α
  quantV : List α
  residK : Option (List α)
  residV : Option (List α)
  deriving DecidableEq

def emptyEntry {α : Type} : QEntryF α := ⟨[], [], none, none⟩

/-- Cache state in per-layer / global mode: one entry per layer plus the
`_seen_tokens` counter. -/
structure QCacheF (α : Type) where
  entries : List (QEntryF α)
  seenTokens : Nat
  deriving DecidableEq

def emptyCacheF {α : Type} : QCacheF α := ⟨[], 0⟩

/-- Cache state in per-head mode: per layer, one entry per head. -/
structure QCacheH (α : Type) where
  entries : List (List (QEntryF α))
  seenTokens : Nat
  deriving DecidableEq

def emptyCacheH {α : Type} : QCacheH α := ⟨[], 0⟩

/-- Contents of a residual slot; the `torch.zeros(0)` placeholder is empty. -/
def residList {α : Type} : Option (List α) → List α
  | none => []
  | some r => r

/-- The `.dim() == 4` (resp. `.dim() == 3`) test of the merge condition:
true exactly for a non-placeholder residual. -/
def residIsArray {α : Type} : Option (List α) → Bool
  | none => false
  | some _ => true

/-- `torch.cat([residual, new], dim=-2)`: concatenation along the sequence
dimension; the 1-dim empty placeholder is skipped by `torch.cat`, producing
the new block as a real tensor. -/
def catResid {α : Type} : Option (List α) → List α → Option (List α)
  | none, l => some l
  | some r, l => some (r ++ l)

/-- `self._quantize(tensor, axis, nbits)` composed with the later
`self._dequantize`: the positionwise lossy round trip. -/
def quantize {α : Type} (c : QuantCtx α) (nbits axis : Int) (l : List α) : List α :=
  l.map (c.qf nbits axis)

/-- Python `x[..., :-t, :]` along the sequence dimension.  For `t = 0` this is
`x[:0]`, the empty slice (Python has no negative zero index). -/
def negSliceHead {α : Type} (l : List α) (t : Nat) : List α :=
  if t = 0 then [] else l.take (l.length - t)

/-- Python `x[..., -t:, :]` along the sequence dimension.  For `t = 0` this is
`x[0:]`, the whole tensor. -/
def negSliceTail {α : Type} (l : List α) (t : Nat) : List α :=
  if t = 0 then l else l.drop (l.length - t)

/-- The merge trigger of lines 206-208 (and 259-261 per head):
`residual.dim() == 4 and residual.shape[-2] + 1 >= residual_length`. -/
def mergeCond {α : Type} (cfg : FQConfig) (rK : Option (List α)) : Bool :=
  residIsArray rK && decide ((residList rK).length + 1 ≥ cfg.residualLength)

/-- Effective `(nbits_key, nbits_value)` of lines 171-172: the global pair, or
the per-layer table entry when per-layer mode is active (a missing table entry
is the Python `KeyError`). -/
def resolveNbits (cfg : FQConfig) (layerIdx : Nat) : Except CacheErr (Int × Int) :=
  if cfg.perLayerQuant then
    match cfg.perLayerConfig.get? layerIdx with
    | some p => Except.ok p
    | none => Except.error CacheErr.missingLayerConfig
  else Except.ok (cfg.nbitsKey, cfg.nbitsValue)

/-- First append for a layer in the non-per-head path (lines 173-197):
resulting entry and returned key/value pair. -/
def firstAppendFlat {α : Type} (c : QuantCtx α) (cfg : FQConfig) (nk nv : Int)
    (ks vs : List α) : QEntryF α × (List α × List α) :=
  if cfg.forceQuant then
    if cfg.residualLength ≠ 0 then
      -- lines 176-182: tokens_to_keep = seq_len % residual_length
      let t := ks.length % cfg.residualLength
      let e : QEntryF α :=
        ⟨quantize c nk cfg.axisKey (negSliceHead ks t),
         quantize c nv cfg.axisValue (negSliceHead vs t),
         some (negSliceTail ks t), some (negSliceTail vs t)⟩
      (e, (e.quantK ++ residList e.residK, e.quantV ++ residList e.residV))
    else
      -- lines 183-187: residual_length == 0, quantize the whole block
      let e : QEntryF α :=
        ⟨quantize c nk cfg.axisKey ks, quantize c nv cfg.axisValue vs, none, none⟩
      (e, (e.quantK ++ residList e.residK, e.quantV ++ residList e.residV))
  else
    -- lines 192-197: no force_quant, quantize the whole block, return originals
    let e : QEntryF α :=
      ⟨quantize c nk cfg.axisKey ks, quantize c nv cfg.axisValue vs, none, none⟩
    (e, (ks, vs))

/-- Subsequent append for a layer in the non-per-head path (lines 198-218):
resulting entry and returned key/value pair (returned regardless of merge). -/
def subseqFlat {α : Type} (c : QuantCtx α) (cfg : FQConfig) (nk nv : Int)
    (e : QEntryF α) (ks vs : List α) : QEntryF α × (List α × List α) :=
  let keysRet := e.quantK ++ residList e.residK ++ ks
  let valsRet := e.quantV ++ residList e.residV ++ vs
  if mergeCond cfg e.residK then
    (⟨quantize c nk cfg.axisKey keysRet, quantize c nv cfg.axisValue valsRet, none, none⟩,
     (keysRet, valsRet))
  else
    (⟨e.quantK, e.quantV, catResid e.residK ks, catResid e.residV vs⟩, (keysRet, valsRet))

/-- `FlexibleQuantizedCache.update` in per-layer / global mode (lines 156-218,
branch `not self.per_head_quant`).  The `_seen_tokens` increment of lines
165-166 precedes the layer-skip check of lines 167-168, so a later `raise`
leaves it in place. -/
def updateFlat {α : Type} (c : QuantCtx α) (cfg : FQConfig) (st : QCacheF α)
    (ks vs : List α) (layerIdx : Nat) : QCacheF α × Except CacheErr (List α × List α) :=
  let st1 : QCacheF α :=
    if layerIdx = 0 then ⟨st.entries, st.seenTokens + ks.length⟩ else st
  if st1.entries.length < layerIdx then (st1, Except.error CacheErr.layerSkip)
  else
    match resolveNbits cfg layerIdx with
    | Except.error err => (st1, Except.error err)
    | Except.ok (nk, nv) =>
      if st1.entries.length = layerIdx then
        let r := firstAppendFlat c cfg nk nv ks vs
        (⟨st1.entries ++ [r.1], st1.seenTokens⟩, Except.ok r.2)
      else
        match st1.entries.get? layerIdx with
        | none => (st1, Except.error CacheErr.layerSkip)  -- unreachable: layerIdx < length
        | some e =>
          let r := subseqFlat c cfg nk nv e ks vs
          (⟨st1.entries.set layerIdx r.1, st1.seenTokens⟩, Except.ok r.2)

/-- `key_states.shape[-2]` of a per-head block (heads outer after the
transpose of line 221; every head carries the same sequence length). -/
def seqLenH {α : Type} (ks : List (List α)) : Nat := (ks.headD []).length

/-- First append for one head (lines 231-252). -/
def firstHeadEntry {α : Type} (c : QuantCtx α) (cfg : FQConfig) (s : Nat)
    (hcfg : Int × Int) (hk hv : List α) : QEntryF α × (List α × List α) :=
  if cfg.forceQuant then
    if cfg.residualLength ≠ 0 then
      let t := s % cfg.residualLength
      let e : QEntryF α :=
        ⟨quantize c hcfg.1 cfg.axisKey (negSliceHead hk t),
         quantize c hcfg.2 cfg.axisValue (negSliceHead hv t),
         some (negSliceTail hk t), some (negSliceTail hv t)⟩
      (e, (e.quantK ++ residList e.residK, e.quantV ++ residList e.residV))
    else
      let e : QEntryF α :=
        ⟨quantize c hcfg.1 cfg.axisKey hk, quantize c hcfg.2 cfg.axisValue hv, none, none⟩
      (e, (e.quantK ++ residList e.residK, e.quantV ++ residList e.residV))
  else
    let e : QEntryF α :=
      ⟨quantize c hcfg.1 cfg.axisKey hk, quantize c hcfg.2 cfg.axisValue hv, none, none⟩
    (e, (hk, hv))

/-- Subsequent append for one head (lines 254-269). -/
def subseqHeadEntry {α : Type} (c : QuantCtx α) (cfg : FQConfig) (hcfg : Int × Int)
    (e : QEntryF α) (hk hv : List α) : QEntryF α × (List α × List α) :=
  let kr := e.quantK ++ residList e.residK ++ hk
  let vr := e.quantV ++ residList e.residV ++ hv
  if mergeCond cfg e.residK then
    (⟨quantize c hcfg.1 cfg.axisKey kr, quantize c hcfg.2 cfg.axisValue vr, none, none⟩,
     (kr, vr))
  else
    (⟨e.quantK, e.quantV, catResid e.residK hk, catResid e.residV hv⟩, (kr, vr))

/-- `FlexibleQuantizedCache.update` in per-head mode (lines 219-271).  The
head-count check of lines 223-224 runs before any per-head entry is created
or modified; the `_seen_tokens` increment has already happened. -/
def updatePerHead {α : Type} (c : QuantCtx α) (cfg : FQConfig) (st : QCacheH α)
    (ks vs : List (List α)) (layerIdx : Nat) :
    QCacheH α × Except CacheErr (List (List α) × List (List α)) :=
  let st1 : QCacheH α :=
    if layerIdx = 0 then ⟨st.entries, st.seenTokens + seqLenH ks⟩ else st
  if st1.entries.length < layerIdx then (st1, Except.error CacheErr.layerSkip)
  else if ks.length ≠ vs.length then (st1, Except.error CacheErr.assertFailed)
  else
    match cfg.perHeadConfig.get? layerIdx with
    | none => (st1, Except.error CacheErr.missingHeadConfig)
    | some hcfgs =>
      if ks.length ≠ hcfgs.length then (st1, Except.error CacheErr.headCountMismatch)
      else if st1.entries.length = layerIdx then
        let rs := List.zipWith (fun p hc => firstHeadEntry c cfg (seqLenH ks) hc p.1 p.2)
          (ks.zip vs) hcfgs
        (⟨st1.entries ++ [rs.map Prod.fst], st1.seenTokens⟩,
         Except.ok (rs.map (fun r => r.2.1), rs.map (fun r => r.2.2)))
      else
        match st1.entries.get? layerIdx with
        | none => (st1, Except.error CacheErr.layerSkip)  -- unreachable
        | some hes =>
          let rs := List.zipWith (fun p e => subseqHeadEntry c cfg p.2 e p.1.1 p.1.2)
            ((ks.zip vs).zip hcfgs) hes
          (⟨st1.entries.set layerIdx (rs.map Prod.fst), st1.seenTokens⟩,
           Except.ok (rs.map (fun r => r.2.1), rs.map (fun r => r.2.2)))

/-- `FlexibleQuantizedCache.get_seq_length` (lines 274-281).  The result is an
integer: Python computes `self._seen_tokens - 1` for nonzero layer indices. -/
def getSeqLengthF {α : Type} (st : QCacheF α) (layerIdx : Nat) : Int :=
  if st.entries.length ≤ layerIdx then 0
  else if layerIdx = 0 then (st.seenTokens : Int) else (st.seenTokens : Int) - 1

/-- Quanto qtypes available to `FlexibleQuantoQuantizedCache`. -/
inductive QType
  | qint2
  | qint4
  | qint8
  deriving DecidableEq

/-- `FlexibleQuantoQuantizedCache.get_qtype` (lines 350-360): no `else`
branch, so an unsupported `nbits` falls through and returns `None`. -/
def getQtype (nbits : Int) : Option QType :=
  if nbits = 2 then some QType.qint2
  else if nbits = 4 then some QType.qint4
  else if nbits = 8 then some QType.qint8
  else none

/-- The `ValueError`s of `FlexibleQuantoQuantizedCache.__init__`. -/
inductive ConfigErr
  | badNbits
  | badAxisKey
  | badAxisValue
  deriving DecidableEq

/-- Validation performed by `FlexibleQuantoQuantizedCache.__init__`
(lines 336-345): only the global `self.nbits` and the two axes are checked. -/
def quantoInit (cfg : FQConfig) : Except ConfigErr Unit :=
  if cfg.nbits ∉ ([2, 4, 8] : List Int) then Except.error ConfigErr.badNbits
  else if cfg.axisKey ∉ ([0, -1] : List Int) then Except.error ConfigErr.badAxisKey
  else if cfg.axisValue ∉ ([0, -1] : List Int) then Except.error ConfigErr.badAxisValue
  else Except.ok ()

/-! ### Runs of `update` calls (non-per-head path) -/

/-- State after one `update` call; the returned tensors are dropped. -/
def stepF {α : Type} (c : QuantCtx α) (cfg : FQConfig) (st : QCacheF α)
    (op : Nat × List α × List α) : QCacheF α :=
  (updateFlat c cfg st op.2.1 op.2.2 op.1).1

/-- State after a sequence of `update (layer, keys, values)` calls starting
from a fresh cache. -/
def runOpsF {α : Type} (c : QuantCtx α) (cfg : FQConfig)
    (ops : List (Nat × List α × List α)) : QCacheF α :=
  ops.foldl (stepF c cfg) emptyCacheF

/-- Every call of the run returns without raising. -/
def runOk {α : Type} (c : QuantCtx α) (cfg : FQConfig) :
    QCacheF α → List (Nat × List α × List α) → Bool
  | _, [] => true
  | st, op :: rest =>
    match updateFlat c cfg st op.2.1 op.2.2 op.1 with
    | (st2, Except.ok _) => runOk c cfg st2 rest
    | (_, Except.error _) => false

/-- Total number of positions presented at layer 0 by a run. -/
def totalLayer0 {α : Type} (ops : List (Nat × List α × List α)) : Nat :=
  (ops.map (fun op => if op.1 = 0 then op.2.1.length else 0)).sum

/-- The layer-0 entry of a cache state (the empty entry if absent). -/
def entry0 {α : Type} (st : QCacheF α) : QEntryF α := st.entries.getD 0 emptyEntry

/-- Length of the layer-0 full-precision residual. -/
def residLen0 {α : Type} (st : QCacheF α) : Nat := (residList (entry0 st).residK).length

/-- Whether an `update` call on `st` at `layerIdx` would take the merge branch
of lines 206-215 (false when the layer has no entry yet). -/
def mergeFired {α : Type} (cfg : FQConfig) (st : QCacheF α) (layerIdx : Nat) : Bool :=
  match st.entries.get? layerIdx with
  | some e => mergeCond cfg e.residK
  | none => false

/-- A flat-mode configuration with the given residual length and force_quant
flag (nbits_key = nbits_value = 4, axes 0, as in the spec's concrete
scenario). -/
def cfgFlat (r : Nat) (force : Bool) : FQConfig :=
  ⟨4, 4, 4, 0, 0, 64, false, r, force, false, [], false, []⟩

/-- A quantization round trip on `Nat` slabs that visibly distorts the value,
so that quantized and original positions cannot be confused. -/
def cNat : QuantCtx Nat := ⟨fun _ _ v => v + 100⟩

/-- `n` single-position appends at layer 0 (position `i` carries slab `i`). -/
def singleOps (n : Nat) : List (Nat × List Nat × List Nat) :=
  (List.range n).map (fun i => (0, ([i], [i])))

/-- Cache state after the first `n` single-position layer-0 appends. -/
def traceS (c : QuantCtx Nat) (cfg : FQConfig) (n : Nat) : QCacheF Nat :=
  runOpsF c cfg (singleOps n)

/-- Number of merges fired during the first `n` single-position appends. -/
def mergeCountS (c : QuantCtx Nat) (cfg : FQConfig) (n : Nat) : Nat :=
  ((List.range n).filter (fun k => mergeFired cfg (traceS c cfg k) 0)).length

/-- One-based step indices (among the first `n`) at which a merge fires. -/
def mergeStepsS (c : QuantCtx Nat) (cfg : FQConfig) (n : Nat) : List Nat :=
  ((List.range n).filter (fun k => mergeFired cfg (traceS c cfg k) 0)).map (fun k => k + 1)

/-- Length of the key history returned by step `k + 1` of the
single-position run. -/
def outLenS (c : QuantCtx Nat) (cfg : FQConfig) (k : Nat) : Nat :=
  match (updateFlat c cfg (traceS c cfg k) [k] [k] 0).2 with
  | Except.ok p => p.1.length
  | Except.error _ => 0

deriving instance DecidableEq for Except

/-! ### Claim C1 — merge timing -/

/-- Claim C1, counterexample: with `residual_length = 4`, appending one
position per step at layer 0 for 10 steps, the merges fire after steps 5 and
9, not after steps 4 and 8 as the claim states; after step 4 the residual
still holds the three positions 1, 2, 3 rather than having been reset. -/
theorem c1_merge_timing_cex :
    mergeStepsS cNat (cfgFlat 4 false) 10 = [5, 9]
    ∧ mergeStepsS cNat (cfgFlat 4 false) 10 ≠ [4, 8]
    ∧ (entry0 (traceS cNat (cfgFlat 4 false) 4)).residK = some [1, 2, 3] := by
  decide

/-- Claim C1, amended: the first append quantizes the whole incoming block and
leaves the residual empty, so with `residual_length = 4` and one position per
step at layer 0 the merges fire exactly after steps 5 and 9 of 10; a merge
fires exactly when the array-form residual length would reach 4;
`get_seq_length(0)` after step 10 is 10 and the history returned by step
`k + 1` has length `k + 1`. -/
theorem c1_merge_timing_amended :
    mergeStepsS cNat (cfgFlat 4 false) 10 = [5, 9]
    ∧ getSeqLengthF (traceS cNat (cfgFlat 4 false) 10) 0 = 10
    ∧ (∀ k < 10, outLenS cNat (cfgFlat 4 false) k = k + 1)
    ∧ (∀ k < 10, (mergeFired (cfgFlat 4 false) (traceS cNat (cfgFlat 4 false) k) 0 = true ↔
        residLen0 (traceS cNat (cfgFlat 4 false) k) + 1 = 4)) := by
  decide

/-! ### Claim C2 — first append without force_quant -/

/-- Claim C2, counterexample: on the first append without `force_quant`
(lines 192-197) the incoming block `[1, 2, 3]` is quantized wholesale into
the quantized tier (visible through the distortion `+100` of `cNat`) and the
residual is the empty placeholder — not, as claimed, the other way around. -/
theorem c2_first_append_cex :
    (entry0 (updateFlat cNat (cfgFlat 4 false) emptyCacheF [1, 2, 3] [1, 2, 3] 0).1).quantK
      = [101, 102, 103]
    ∧ (entry0 (updateFlat cNat (cfgFlat 4 false) emptyCacheF [1, 2, 3] [1, 2, 3] 0).1).residK
      = none
    ∧ ¬ ((entry0 (updateFlat cNat (cfgFlat 4 false) emptyCacheF [1, 2, 3] [1, 2, 3] 0).1).residK
          = some [1, 2, 3]
        ∧ (entry0 (updateFlat cNat (cfgFlat 4 false) emptyCacheF [1, 2, 3] [1, 2, 3] 0).1).quantK
          = []) := by
  decide

/-- Claim C2, amended: on the first append for a layer entry when
`force_quant` is not configured, the entire incoming block is quantized
immediately as the initial quantized tier, the residual starts as the empty
placeholder, and the call returns the original unquantized block. -/
theorem c2_first_append_amended {α : Type} (c : QuantCtx α) (cfg : FQConfig)
    (st : QCacheF α) (ks vs : List α) (l : Nat)
    (hforce : cfg.forceQuant = false) (hpl : cfg.perLayerQuant = false)
    (hlen : st.entries.length = l) :
    (updateFlat c cfg st ks vs l).1.entries =
      st.entries ++ [⟨quantize c cfg.nbitsKey cfg.axisKey ks,
                      quantize c cfg.nbitsValue cfg.axisValue vs, none, none⟩]
    ∧ (updateFlat c cfg st ks vs l).2 = Except.ok (ks, vs) := by
  unfold updateFlat
  by_cases h0 : l = 0 <;>
    simp [h0, resolveNbits, hpl, firstAppendFlat, hforce, hlen]

/-- Witness for `c2_first_append_amended` at a concrete first append. -/
theorem c2_first_append_amended_w :
    (updateFlat cNat (cfgFlat 4 false) emptyCacheF [7, 8] [7, 8] 0).1.entries =
      (emptyCacheF : QCacheF Nat).entries ++
        [⟨quantize cNat (cfgFlat 4 false).nbitsKey (cfgFlat 4 false).axisKey [7, 8],
          quantize cNat (cfgFlat 4 false).nbitsValue (cfgFlat 4 false).axisValue [7, 8],
          none, none⟩]
    ∧ (updateFlat cNat (cfgFlat 4 false) emptyCacheF [7, 8] [7, 8] 0).2 =
      Except.ok ([7, 8], [7, 8]) :=
  c2_first_append_amended cNat (cfgFlat 4 false) emptyCacheF [7, 8] [7, 8] 0
    (by decide) (by decide) (by decide)

/-! ### Claim C5 — residual bound (counterexample) -/

/-- Claim C5, counterexample: with `residual_length = 2`, appending a block of
one position and then a block of five positions leaves five positions in the
full-precision residual — the merge trigger compares
`old_residual_length + 1`, not `old_residual_length + new_block_length`,
against `residual_length`, so multi-position blocks overshoot the bound. -/
theorem c5_residual_bound_cex :
    (cfgFlat 2 false).residualLength = 2
    ∧ residLen0 (runOpsF cNat (cfgFlat 2 false)
        [(0, ([0], [0])), (0, ([1, 2, 3, 4, 5], [1, 2, 3, 4, 5]))]) = 5 := by
  decide

/-! ### Claim C6 — first append with force_quant -/

/-- Claim C6, counterexample: first append with `force_quant`,
`residual_length = 4` and an incoming block of length 4 (`4 % 4 = 0`):
`tokens_to_keep = 0`, so the slice `[..., :-0, :]` is empty and
`[..., -0:, :]` is the whole block — nothing is quantized and all four
positions stay as residual, while the claim demands the opposite split
(`4 - 4 % 4 = 4` positions quantized, `4 % 4 = 0` kept). -/
theorem c6_force_quant_cex :
    (entry0 (updateFlat cNat (cfgFlat 4 true) emptyCacheF
        [10, 20, 30, 40] [10, 20, 30, 40] 0).1).quantK = []
    ∧ (entry0 (updateFlat cNat (cfgFlat 4 true) emptyCacheF
        [10, 20, 30, 40] [10, 20, 30, 40] 0).1).residK = some [10, 20, 30, 40]
    ∧ ¬ ((entry0 (updateFlat cNat (cfgFlat 4 true) emptyCacheF
            [10, 20, 30, 40] [10, 20, 30, 40] 0).1).quantK.length = 4 - 4 % 4
        ∧ (residList (entry0 (updateFlat cNat (cfgFlat 4 true) emptyCacheF
            [10, 20, 30, 40] [10, 20, 30, 40] 0).1).residK).length = 4 % 4) := by
  decide

/-- Claim C6, amended: on the first append with `force_quant`, writing
`t = len % residual_length`: if `residual_length > 0` and `t ≠ 0`, the first
`len - t` positions are quantized and the last `t` stay as residual; if
`residual_length > 0` and `t = 0`, the quantized tier receives an empty block
and the entire block stays as residual (Python `[:-0]` is the empty slice);
if `residual_length = 0`, the entire block is quantized and the residual is
the empty placeholder. -/
theorem c6_force_quant_amended {α : Type} (c : QuantCtx α) (cfg : FQConfig)
    (st : QCacheF α) (ks vs : List α) (l : Nat)
    (hforce : cfg.forceQuant = true) (hpl : cfg.perLayerQuant = false)
    (hlen : st.entries.length = l) :
    (cfg.residualLength ≠ 0 → ks.length % cfg.residualLength ≠ 0 →
      (updateFlat c cfg st ks vs l).1.entries = st.entries ++
        [⟨quantize c cfg.nbitsKey cfg.axisKey
            (ks.take (ks.length - ks.length % cfg.residualLength)),
          quantize c cfg.nbitsValue cfg.axisValue
            (vs.take (vs.length - ks.length % cfg.residualLength)),
          some (ks.drop (ks.length - ks.length % cfg.residualLength)),
          some (vs.drop (vs.length - ks.length % cfg.residualLength))⟩])
    ∧ (cfg.residualLength ≠ 0 → ks.length % cfg.residualLength = 0 →
      (updateFlat c cfg st ks vs l).1.entries = st.entries ++
        [⟨[], [], some ks, some vs⟩])
    ∧ (cfg.residualLength = 0 →
      (updateFlat c cfg st ks vs l).1.entries = st.entries ++
        [⟨quantize c cfg.nbitsKey cfg.axisKey ks,
          quantize c cfg.nbitsValue cfg.axisValue vs, none, none⟩]) := by
  unfold updateFlat
  refine ⟨fun hR ht => ?_, fun hR ht => ?_, fun hR => ?_⟩
  · by_cases h0 : l = 0 <;>
      simp [h0, resolveNbits, hpl, firstAppendFlat, hforce, hlen, hR, ht,
        negSliceHead, negSliceTail, quantize]
  · by_cases h0 : l = 0 <;>
      simp [h0, resolveNbits, hpl, firstAppendFlat, hforce, hlen, hR, ht,
        negSliceHead, negSliceTail, quantize]
  · by_cases h0 : l = 0 <;>
      simp [h0, resolveNbits, hpl, firstAppendFlat, hforce, hlen, hR,
        negSliceHead, negSliceTail, quantize]

/-- Witness for `c6_force_quant_amended`: force_quant first append with
`residual_length = 4` and a block of length 6, so `t = 2`. -/
theorem c6_force_quant_amended_w :
    ((cfgFlat 4 true).residualLength ≠ 0 → (6 : Nat) % (cfgFlat 4 true).residualLength ≠ 0 →
      (updateFlat cNat (cfgFlat 4 true) emptyCacheF
          [1, 2, 3, 4, 5, 6] [1, 2, 3, 4, 5, 6] 0).1.entries =
        (emptyCacheF : QCacheF Nat).entries ++
          [⟨quantize cNat (cfgFlat 4 true).nbitsKey (cfgFlat 4 true).axisKey
              (([1, 2, 3, 4, 5, 6] : List Nat).take (6 - 6 % (cfgFlat 4 true).residualLength)),
            quantize cNat (cfgFlat 4 true).nbitsValue (cfgFlat 4 true).axisValue
              (([1, 2, 3, 4, 5, 6] : List Nat).take (6 - 6 % (cfgFlat 4 true).residualLength)),
            some (([1, 2, 3, 4, 5, 6] : List Nat).drop (6 - 6 % (cfgFlat 4 true).residualLength)),
            some (([1, 2, 3, 4, 5, 6] : List Nat).drop (6 - 6 % (cfgFlat 4 true).residualLength))⟩])
    ∧ ((cfgFlat 4 true).residualLength ≠ 0 → (6 : Nat) % (cfgFlat 4 true).residualLength = 0 →
      (updateFlat cNat (cfgFlat 4 true) emptyCacheF
          [1, 2, 3, 4, 5, 6] [1, 2, 3, 4, 5, 6] 0).1.entries =
        (emptyCacheF : QCacheF Nat).entries ++
          [⟨[], [], some [1, 2, 3, 4, 5, 6], some [1, 2, 3, 4, 5, 6]⟩])
    ∧ ((cfgFlat 4 true).residualLength = 0 →
      (updateFlat cNat (cfgFlat 4 true) emptyCacheF
          [1, 2, 3, 4, 5, 6] [1, 2, 3, 4, 5, 6] 0).1.entries =
        (emptyCacheF : QCacheF Nat).entries ++
          [⟨quantize cNat (cfgFlat 4 true).nbitsKey (cfgFlat 4 true).axisKey [1, 2, 3, 4, 5, 6],
            quantize cNat (cfgFlat 4 true).nbitsValue (cfgFlat 4 true).axisValue
              [1, 2, 3, 4, 5, 6], none, none⟩]) := by
  have h := c6_force_quant_amended cNat (cfgFlat 4 true) emptyCacheF
    [1, 2, 3, 4, 5, 6] [1, 2, 3, 4, 5, 6] 0 (by decide) (by decide) (by decide)
  simpa using h

/-! ### Claim C7 — sequential layer access -/

/-- Claim C7: an `update` call whose layer index exceeds the number of layer
entries created so far fails with the layer-skip `ValueError` of line 168 and
changes nothing (in particular, since such an index is nonzero, `_seen_tokens`
is untouched); this holds in both the per-layer/global and the per-head
paths. -/
theorem c7_layer_skip {α : Type} (c : QuantCtx α) (cfg : FQConfig)
    (st : QCacheF α) (stH : QCacheH α) (ks vs : List α) (ksH vsH : List (List α))
    (l : Nat) (hF : st.entries.length < l) (hH : stH.entries.length < l) :
    updateFlat c cfg st ks vs l = (st, Except.error CacheErr.layerSkip)
    ∧ updatePerHead c cfg stH ksH vsH l = (stH, Except.error CacheErr.layerSkip) := by
  have h0 : l ≠ 0 := by omega
  constructor
  · unfold updateFlat
    simp [h0, hF]
  · unfold updatePerHead
    simp [h0, hH]

/-- Witness for `c7_layer_skip`: skipping to layer 2 on a fresh cache. -/
theorem c7_layer_skip_w :
    updateFlat cNat (cfgFlat 4 false) emptyCacheF [5] [5] 2 =
      (emptyCacheF, Except.error CacheErr.layerSkip)
    ∧ updatePerHead cNat (cfgFlat 4 false) emptyCacheH [[5]] [[5]] 2 =
      (emptyCacheH, Except.error CacheErr.layerSkip) :=
  c7_layer_skip cNat (cfgFlat 4 false) emptyCacheF emptyCacheH [5] [5] [[5]] [[5]] 2
    (by decide) (by decide)

/-! ### Claim C8 — per-head head-count mismatch -/

/-- Claim C8: in per-head mode, when the observed head count of the incoming
block differs from the number of heads configured for that layer, `update`
fails with the `ValueError` of line 224; the check of line 223 runs before
any per-head entry is created or modified, so the cache storage is left
exactly as it was (no partially-constructed entries). -/
theorem c8_head_count_mismatch {α : Type} (c : QuantCtx α) (cfg : FQConfig)
    (st : QCacheH α) (ks vs : List (List α)) (l : Nat) (hc : List (Int × Int))
    (hskip : ¬ st.entries.length < l) (hkv : ks.length = vs.length)
    (hcfg : cfg.perHeadConfig[l]? = some hc) (hmis : ks.length ≠ hc.length) :
    (updatePerHead c cfg st ks vs l).1.entries = st.entries
    ∧ (updatePerHead c cfg st ks vs l).2 = Except.error CacheErr.headCountMismatch := by
  unfold updatePerHead
  have hvs : vs.length ≠ hc.length := by rw [← hkv]; exact hmis
  by_cases h0 : l = 0
  · subst h0
    simp [hskip, hcfg, hmis, hvs, hkv]
  · simp [h0, hskip, hcfg, hmis, hvs, hkv]

/-- Per-head configuration used in witnesses: layer 0 configured with two
heads, each at 4 bits. -/
def cfgPH : FQConfig :=
  ⟨-1, -1, -1, 0, 0, 64, false, 128, false, false, [], true, [[(4, 4), (4, 4)]]⟩

/-- Witness for `c8_head_count_mismatch`: a one-head block against a two-head
configuration, on a fresh cache at layer 0. -/
theorem c8_head_count_mismatch_w :
    (updatePerHead cNat cfgPH emptyCacheH [[1, 2]] [[1, 2]] 0).1.entries =
      (emptyCacheH : QCacheH Nat).entries
    ∧ (updatePerHead cNat cfgPH emptyCacheH [[1, 2]] [[1, 2]] 0).2 =
      Except.error CacheErr.headCountMismatch :=
  c8_head_count_mismatch cNat cfgPH emptyCacheH [[1, 2]] [[1, 2]] 0 [(4, 4), (4, 4)]
    (by decide) (by decide) (by decide) (by decide)

/-! ### Claim C9 — quanto backend validation -/

/-- Configuration reaching the quanto backend with `nbits_key = 3`: the
constructor keeps any nonzero `nbits_key` (line 89), and
`FlexibleQuantoQuantizedCache.__init__` validates only the global `nbits`. -/
def cfgQ3 : FQConfig :=
  ⟨4, resolvedNbitsKey 4 3, 4, 0, 0, 64, false, 128, false, false, [], false, []⟩

/-- Claim C9, counterexample: quantization is configured with
`nbits_key = 3 ∉ {2, 4, 8}` (global `nbits = 4`), yet
`FlexibleQuantoQuantizedCache.__init__` succeeds — it checks only
`self.nbits` — and `get_qtype(3)` falls through all branches and returns
`None` instead of raising a `ConfigError`. -/
theorem c9_quanto_validation_cex :
    cfgQ3.nbitsKey = 3
    ∧ cfgQ3.nbitsKey ∉ ([2, 4, 8] : List Int)
    ∧ quantoInit cfgQ3 = Except.ok ()
    ∧ getQtype cfgQ3.nbitsKey = none := by
  decide

/-- Claim C9, amended: the quanto backend's constructor fails exactly when the
global `nbits` is outside `{2, 4, 8}` or an axis is outside `{0, -1}`; the
per-key/value (and per-layer/per-head) bit-widths are not validated, and a
quantization request resolves to a qtype exactly for `nbits ∈ {2, 4, 8}`,
with `get_qtype` returning `None` (no error) otherwise. -/
theorem c9_quanto_validation_amended :
    (∀ cfg : FQConfig, quantoInit cfg = Except.ok () ↔
      (cfg.nbits ∈ ([2, 4, 8] : List Int) ∧ cfg.axisKey ∈ ([0, -1] : List Int)
        ∧ cfg.axisValue ∈ ([0, -1] : List Int)))
    ∧ (∀ n : Int, (getQtype n).isSome = true ↔ n ∈ ([2, 4, 8] : List Int)) := by
  constructor
  · intro cfg
    unfold quantoInit
    by_cases h1 : cfg.nbits ∈ ([2, 4, 8] : List Int) <;>
      by_cases h2 : cfg.axisKey ∈ ([0, -1] : List Int) <;>
        by_cases h3 : cfg.axisValue ∈ ([0, -1] : List Int) <;>
          simp [h1, h2, h3]
  · intro n
    unfold getQtype
    by_cases h1 : n = 2 <;> by_cases h2 : n = 4 <;> by_cases h3 : n = 8 <;>
      simp [h1, h2, h3]

/-! ### Claim C10 — non-atomic `_seen_tokens` increment -/

/-- Claim C10: for a layer-0 call, `_seen_tokens` is incremented by
`key_states.shape[-2]` (lines 165-166) before any validation or storage work;
a per-head call that then fails the head-count check of lines 223-224 returns
with the counter permanently incremented and the storage untouched — the
counter update is not atomic with the rest of the append. -/
theorem c10_seen_tokens_not_atomic {α : Type} (c : QuantCtx α) (cfg : FQConfig)
    (st : QCacheH α) (ks vs : List (List α)) (hc : List (Int × Int))
    (hkv : ks.length = vs.length)
    (hcfg : cfg.perHeadConfig[0]? = some hc) (hmis : ks.length ≠ hc.length) :
    updatePerHead c cfg st ks vs 0 =
      (⟨st.entries, st.seenTokens + seqLenH ks⟩,
       Except.error CacheErr.headCountMismatch) := by
  unfold updatePerHead
  have hvs : vs.length ≠ hc.length := by rw [← hkv]; exact hmis
  simp [hcfg, hmis, hvs, hkv]

/-- Witness for `c10_seen_tokens_not_atomic`: a failing layer-0 call whose
two positions are still counted. -/
theorem c10_seen_tokens_not_atomic_w :
    updatePerHead cNat cfgPH (⟨[], 5⟩ : QCacheH Nat) [[7, 8]] [[7, 8]] 0 =
      (⟨[], 5 + seqLenH ([[7, 8]] : List (List Nat))⟩,
       Except.error CacheErr.headCountMismatch) :=
  c10_seen_tokens_not_atomic cNat cfgPH ⟨[], 5⟩ [[7, 8]] [[7, 8]] [(4, 4), (4, 4)]
    (by decide) (by decide) (by decide)

/-! ### Run lemmas shared by the remaining claims -/

theorem residList_none {α : Type} : residList (none : Option (List α)) = [] := rfl

theorem residList_some {α : Type} (r : List α) : residList (some r) = r := rfl

theorem catResid_len {α : Type} (o : Option (List α)) (l : List α) :
    (residList (catResid o l)).length = (residList o).length + l.length := by
  cases o <;> simp [catResid, residList]

/-- `update` adds `key_states.shape[-2]` to `_seen_tokens` exactly on layer-0
calls, in every branch including the failing ones. -/
theorem updateFlat_seen {α : Type} (c : QuantCtx α) (cfg : FQConfig)
    (st : QCacheF α) (ks vs : List α) (l : Nat) :
    (updateFlat c cfg st ks vs l).1.seenTokens =
      st.seenTokens + (if l = 0 then ks.length else 0) := by
  unfold updateFlat
  by_cases h0 : l = 0 <;>
    simp only [h0, if_true, if_false, reduceIte] <;>
      (repeat' split) <;> simp

theorem foldl_stepF_seen {α : Type} (c : QuantCtx α) (cfg : FQConfig) :
    ∀ (ops : List (Nat × List α × List α)) (st : QCacheF α),
      (ops.foldl (stepF c cfg) st).seenTokens = st.seenTokens + totalLayer0 ops := by
  intro ops
  induction ops with
  | nil => intro st; simp [totalLayer0]
  | cons op rest ih =>
    intro st
    simp only [List.foldl_cons, totalLayer0, List.map_cons, List.sum_cons]
    rw [ih]
    simp [stepF, updateFlat_seen, totalLayer0]
    omega

theorem runOpsF_seen {α : Type} (c : QuantCtx α) (cfg : FQConfig)
    (ops : List (Nat × List α × List α)) :
    (runOpsF c cfg ops).seenTokens = totalLayer0 ops := by
  unfold runOpsF
  rw [foldl_stepF_seen]
  simp [emptyCacheF]

/-- Claim C4: after any successful run, `get_seq_length` returns 0 for a layer
with no entry, and otherwise `seen_tokens` for layer 0 and `seen_tokens - 1`
for other layers, where `seen_tokens` equals the total number of positions
appended at layer 0. -/
theorem c4_get_seq_length {α : Type} (c : QuantCtx α) (cfg : FQConfig)
    (ops : List (Nat × List α × List α)) (h : runOk c cfg emptyCacheF ops = true)
    (l : Nat) :
    getSeqLengthF (runOpsF c cfg ops) l =
      if (runOpsF c cfg ops).entries.length ≤ l then 0
      else if l = 0 then (totalLayer0 ops : Int) else (totalLayer0 ops : Int) - 1 := by
  unfold getSeqLengthF
  rw [runOpsF_seen]

/-- Witness for `c4_get_seq_length`: three successful appends, two of them at
layer 0 with one position each, queried at layer 1. -/
theorem c4_get_seq_length_w :
    runOk cNat (cfgFlat 4 false) emptyCacheF
        [(0, ([7], [7])), (1, ([7], [7])), (0, ([8], [8]))] = true
    ∧ getSeqLengthF (runOpsF cNat (cfgFlat 4 false)
        [(0, ([7], [7])), (1, ([7], [7])), (0, ([8], [8]))]) 1 =
      if (runOpsF cNat (cfgFlat 4 false)
            [(0, ([7], [7])), (1, ([7], [7])), (0, ([8], [8]))]).entries.length ≤ 1 then 0
      else if (1 : Nat) = 0 then
        (totalLayer0 [(0, ([7], [7])), (1, ([7], [7])), (0, ([8], [8]))] : Int)
      else (totalLayer0 [(0, ([7], [7])), (1, ([7], [7])), (0, ([8], [8]))] : Int) - 1 :=
  ⟨by decide,
   c4_get_seq_length cNat (cfgFlat 4 false)
     [(0, ([7], [7])), (1, ([7], [7])), (0, ([8], [8]))] (by decide) 1⟩

/-- First append for a layer at index 0 (per-layer mode off). -/
theorem updateFlat0_first {α : Type} (c : QuantCtx α) (cfg : FQConfig)
    (hpl : cfg.perLayerQuant = false) (st : QCacheF α) (ks vs : List α)
    (h : st.entries = []) :
    (updateFlat c cfg st ks vs 0).1 =
      ⟨[(firstAppendFlat c cfg cfg.nbitsKey cfg.nbitsValue ks vs).1],
       st.seenTokens + ks.length⟩ := by
  unfold updateFlat
  simp [resolveNbits, hpl, h]

/-- Subsequent append for a single-entry cache at layer 0. -/
theorem updateFlat0_subseq {α : Type} (c : QuantCtx α) (cfg : FQConfig)
    (hpl : cfg.perLayerQuant = false) (st : QCacheF α) (e : QEntryF α)
    (ks vs : List α) (h : st.entries = [e]) :
    (updateFlat c cfg st ks vs 0).1 =
      ⟨[(subseqFlat c cfg cfg.nbitsKey cfg.nbitsValue e ks vs).1],
       st.seenTokens + ks.length⟩ := by
  unfold updateFlat
  simp [resolveNbits, hpl, h]

theorem firstAppendFlat_residLen {α : Type} (c : QuantCtx α) (cfg : FQConfig)
    (nk nv : Int) (ks vs : List α) :
    (residList (firstAppendFlat c cfg nk nv ks vs).1.residK).length ≤ ks.length := by
  unfold firstAppendFlat negSliceTail
  split
  · split
    · by_cases ht : ks.length % cfg.residualLength = 0 <;>
        simp [residList, ht]
    · simp [residList]
  · simp [residList]

theorem subseqFlat_residK {α : Type} (c : QuantCtx α) (cfg : FQConfig)
    (nk nv : Int) (e : QEntryF α) (ks vs : List α) :
    (subseqFlat c cfg nk nv e ks vs).1.residK =
      if mergeCond cfg e.residK then none else catResid e.residK ks := by
  unfold subseqFlat
  split <;> simp

theorem traceS_zero (c : QuantCtx Nat) (cfg : FQConfig) :
    traceS c cfg 0 = emptyCacheF := by
  simp [traceS, runOpsF, singleOps]

theorem traceS_succ (c : QuantCtx Nat) (cfg : FQConfig) (n : Nat) :
    traceS c cfg (n + 1) = stepF c cfg (traceS c cfg n) (0, ([n], [n])) := by
  unfold traceS runOpsF singleOps
  rw [List.range_succ, List.map_append, List.foldl_append]
  rfl

theorem entry0_single {α : Type} (e : QEntryF α) (s : Nat) :
    entry0 (⟨[e], s⟩ : QCacheF α) = e := rfl

/-- Along a single-position layer-0 run the cache has exactly one entry from
step 1 on. -/
theorem traceS_entries (c : QuantCtx Nat) (cfg : FQConfig)
    (hpl : cfg.perLayerQuant = false) :
    ∀ n : Nat, 1 ≤ n → ∃ e, (traceS c cfg n).entries = [e] := by
  intro n
  induction n with
  | zero => omega
  | succ m ih =>
    intro _
    rw [traceS_succ]
    by_cases hm : 1 ≤ m
    · obtain ⟨e, he⟩ := ih hm
      refine ⟨(subseqFlat c cfg cfg.nbitsKey cfg.nbitsValue e [m] [m]).1, ?_⟩
      simp [stepF, updateFlat0_subseq c cfg hpl (traceS c cfg m) e [m] [m] he]
    · have hm0 : m = 0 := by omega
      subst hm0
      rw [traceS_zero]
      refine ⟨(firstAppendFlat c cfg cfg.nbitsKey cfg.nbitsValue [0] [0]).1, ?_⟩
      simp [stepF, updateFlat0_first c cfg hpl emptyCacheF [0] [0] rfl]

theorem mergeCountS_zero (c : QuantCtx Nat) (cfg : FQConfig) :
    mergeCountS c cfg 0 = 0 := rfl

theorem mergeCountS_succ (c : QuantCtx Nat) (cfg : FQConfig) (n : Nat) :
    mergeCountS c cfg (n + 1) =
      mergeCountS c cfg n + (if mergeFired cfg (traceS c cfg n) 0 then 1 else 0) := by
  unfold mergeCountS
  rw [List.range_succ, List.filter_append]
  simp only [List.length_append]
  split <;> simp_all

/-- After a non-merging single append the layer-0 residual grows by one; after
a merging one it is reset; a merge requires the residual to have been within
one position of `residual_length`. -/
theorem residLen0_step (c : QuantCtx Nat) (cfg : FQConfig)
    (hpl : cfg.perLayerQuant = false) (m : Nat) :
    (mergeFired cfg (traceS c cfg m) 0 = true →
      residLen0 (traceS c cfg (m + 1)) = 0
      ∧ cfg.residualLength ≤ residLen0 (traceS c cfg m) + 1)
    ∧ (mergeFired cfg (traceS c cfg m) 0 = false →
      residLen0 (traceS c cfg (m + 1)) ≤ residLen0 (traceS c cfg m) + 1
      ∧ (residLen0 (traceS c cfg m) = 0
         ∨ residLen0 (traceS c cfg m) + 1 < cfg.residualLength)) := by
  by_cases hm : 1 ≤ m
  · obtain ⟨e, he⟩ := traceS_entries c cfg hpl m hm
    have hfired : mergeFired cfg (traceS c cfg m) 0 = mergeCond cfg e.residK := by
      simp [mergeFired, he]
    have hlen : residLen0 (traceS c cfg m) = (residList e.residK).length := by
      simp [residLen0, entry0, he]
    have hstep : traceS c cfg (m + 1) =
        ⟨[(subseqFlat c cfg cfg.nbitsKey cfg.nbitsValue e [m] [m]).1],
         (traceS c cfg m).seenTokens + 1⟩ := by
      rw [traceS_succ]
      simp [stepF, updateFlat0_subseq c cfg hpl (traceS c cfg m) e [m] [m] he]
    constructor
    · intro hmerge
      rw [hfired] at hmerge
      have hR : cfg.residualLength ≤ (residList e.residK).length + 1 := by
        have h2 := hmerge
        simp [mergeCond] at h2
        exact h2.2
      refine ⟨?_, ?_⟩
      · rw [hstep]
        simp [residLen0, entry0_single, subseqFlat_residK, hmerge, residList]
      · rw [hlen]
        exact hR
    · intro hnone
      rw [hfired] at hnone
      refine ⟨?_, ?_⟩
      · rw [hstep, hlen]
        simp [residLen0, entry0_single, subseqFlat_residK, hnone, catResid_len]
      · cases hre : e.residK with
        | none => exact Or.inl (by simp [hlen, hre, residList])
        | some r =>
          rw [hre] at hnone
          simp [mergeCond, residList] at hnone
          exact Or.inr (by rw [hlen, hre]; exact hnone rfl)
  · have hm0 : m = 0 := by omega
    subst hm0
    have hfired : mergeFired cfg (traceS c cfg 0) 0 = false := by
      rw [traceS_zero]; rfl
    have h0 : residLen0 (traceS c cfg 0) = 0 := by
      rw [traceS_zero]; rfl
    constructor
    · intro hmerge
      rw [hfired] at hmerge
      cases hmerge
    · intro _
      refine ⟨?_, Or.inl h0⟩
      have hstep : traceS c cfg (0 + 1) =
          ⟨[(firstAppendFlat c cfg cfg.nbitsKey cfg.nbitsValue [0] [0]).1], 1⟩ := by
        rw [traceS_succ, traceS_zero]
        show (updateFlat c cfg emptyCacheF [0] [0] 0).1 = _
        rw [updateFlat0_first c cfg hpl emptyCacheF [0] [0] rfl]
        rfl
      have hb := firstAppendFlat_residLen c cfg cfg.nbitsKey cfg.nbitsValue
        ([0] : List Nat) ([0] : List Nat)
      simp only [List.length_cons, List.length_nil] at hb
      rw [hstep, h0]
      simpa [residLen0, entry0] using hb

theorem c5_bound_aux (c : QuantCtx Nat) (R : Nat) (force : Bool) :
    ∀ n : Nat, R * mergeCountS c (cfgFlat R force) n
      + residLen0 (traceS c (cfgFlat R force) n) ≤ n := by
  intro n
  induction n with
  | zero =>
    have h0 : residLen0 (traceS c (cfgFlat R force) 0) = 0 := by
      rw [traceS_zero]; rfl
    rw [mergeCountS_zero, h0]
    simp
  | succ m ih =>
    have hstep := residLen0_step c (cfgFlat R force) rfl m
    rw [mergeCountS_succ]
    cases hf : mergeFired (cfgFlat R force) (traceS c (cfgFlat R force) m) 0
    · have h1 := (hstep.2 hf).1
      simp only [Bool.false_eq_true, if_false, Nat.add_zero]
      generalize R * mergeCountS c (cfgFlat R force) m = q at ih ⊢
      omega
    · have h1 := hstep.1 hf
      have hRr : (cfgFlat R force).residualLength = R := rfl
      rw [hRr] at h1
      simp only [if_true]
      have e1 : R * (mergeCountS c (cfgFlat R force) m + 1)
          = R * mergeCountS c (cfgFlat R force) m + R := by ring
      rw [e1, h1.1]
      have h2 := h1.2
      generalize R * mergeCountS c (cfgFlat R force) m = q at ih ⊢
      omega

/-- Claim C5, amended: when positions are appended one at a time (the decode
regime) with `residual_length = R ≥ 1`, the layer-0 full-precision residual
never exceeds `R` positions at any step of the run, and re-quantization fires
at most once per `R` appended positions (`R · #merges ≤ #appends`); with
multi-position blocks the bound fails (see the counterexample). -/
theorem c5_residual_bound_amended (c : QuantCtx Nat) (R : Nat) (force : Bool)
    (hR : 1 ≤ R) (n k : Nat) (hk : k ≤ n) :
    residLen0 (traceS c (cfgFlat R force) k) ≤ R
    ∧ R * mergeCountS c (cfgFlat R force) n ≤ n := by
  constructor
  · cases k with
    | zero =>
      have h0 : residLen0 (traceS c (cfgFlat R force) 0) = 0 := by
        rw [traceS_zero]; rfl
      rw [h0]
      exact Nat.zero_le R
    | succ m =>
      have hstep := residLen0_step c (cfgFlat R force) rfl m
      cases hf : mergeFired (cfgFlat R force) (traceS c (cfgFlat R force) m) 0
      · have h1 := hstep.2 hf
        have hRr : (cfgFlat R force).residualLength = R := rfl
        rw [hRr] at h1
        rcases h1.2 with h2 | h2 <;> omega
      · have h1 := hstep.1 hf
        omega
  · have hb := c5_bound_aux c R force n
    generalize R * mergeCountS c (cfgFlat R force) n = q at hb ⊢
    omega

/-- Witness for `c5_residual_bound_amended` on a ten-step run with `R = 4`. -/
theorem c5_residual_bound_amended_w :
    residLen0 (traceS cNat (cfgFlat 4 false) 7) ≤ 4
    ∧ 4 * mergeCountS cNat (cfgFlat 4 false) 10 ≤ 10 :=
  c5_residual_bound_amended cNat 4 false (by decide) 10 7 (by decide)

/-! ### Claim C3 — order preservation machinery -/

theorem catResid_alt {α : Type} (o : Option (List α)) (l : List α) :
    residList (catResid o l) = residList o ++ l := by
  cases o <;> simp [catResid, residList]

/-- Ghost element type for order-preservation: a position carries its append
index (`fst`) and the number of quantization round trips it has been through
(`snd`); the distortion increments the counter and keeps the index. -/
def cMark : QuantCtx (Nat × Nat) := ⟨fun _ _ p => (p.1, p.2 + 1)⟩

/-- A block of `len` fresh positions with consecutive indices from `off`. -/
def idBlock (off len : Nat) : List (Nat × Nat) :=
  (List.range len).map (fun j => (off + j, 0))

/-- Layer-0 appends of blocks of the given sizes, indices numbered from
`off`. -/
def opsOfSizes : Nat → List Nat → List (Nat × List (Nat × Nat) × List (Nat × Nat))
  | _, [] => []
  | off, s :: rest => (0, (idBlock off s, idBlock off s)) :: opsOfSizes (off + s) rest

/-- Logical key history of the layer-0 entry:
`dequantize(quantized) ++ residual`. -/
def histK {α : Type} (st : QCacheF α) : List α :=
  (entry0 st).quantK ++ residList (entry0 st).residK

/-- Logical value history of the layer-0 entry. -/
def histV {α : Type} (st : QCacheF α) : List α :=
  (entry0 st).quantV ++ residList (entry0 st).residV

theorem map_fst_quantize (n a : Int) (l : List (Nat × Nat)) :
    (quantize cMark n a l).map Prod.fst = l.map Prod.fst := by
  simp [quantize, cMark, List.map_map]

theorem idBlock_fst (off len : Nat) :
    (idBlock off len).map Prod.fst = (List.range len).map (fun j => off + j) := by
  simp [idBlock]

theorem idBlock_snd (off len : Nat) : ∀ p ∈ idBlock off len, p.2 = 0 := by
  simp [idBlock]

theorem negSlice_append {α : Type} (l : List α) (t : Nat) :
    negSliceHead l t ++ negSliceTail l t = l := by
  unfold negSliceHead negSliceTail
  split <;> simp [List.take_append_drop]

theorem negSliceTail_subset {α : Type} (l : List α) (t : Nat) :
    ∀ p ∈ negSliceTail l t, p ∈ l := by
  unfold negSliceTail
  split
  · simp
  · intro p hp
    exact List.mem_of_mem_drop hp

theorem firstAppendFlat_mark (cfg : FQConfig) (nk nv : Int) (b : List (Nat × Nat)) :
    ((firstAppendFlat cMark cfg nk nv b b).1.quantK
        ++ residList (firstAppendFlat cMark cfg nk nv b b).1.residK).map Prod.fst
      = b.map Prod.fst
    ∧ ((firstAppendFlat cMark cfg nk nv b b).1.quantV
        ++ residList (firstAppendFlat cMark cfg nk nv b b).1.residV).map Prod.fst
      = b.map Prod.fst
    ∧ (∀ p ∈ residList (firstAppendFlat cMark cfg nk nv b b).1.residK, p ∈ b)
    ∧ (∀ p ∈ residList (firstAppendFlat cMark cfg nk nv b b).1.residV, p ∈ b) := by
  unfold firstAppendFlat
  split
  · split
    · refine ⟨?_, ?_, ?_, ?_⟩
      · simp only [residList, List.map_append, map_fst_quantize]
        rw [← List.map_append, negSlice_append]
      · simp only [residList, List.map_append, map_fst_quantize]
        rw [← List.map_append, negSlice_append]
      · simp only [residList]
        exact negSliceTail_subset b _
      · simp only [residList]
        exact negSliceTail_subset b _
    · simp [map_fst_quantize, residList]
  · simp [map_fst_quantize, residList]

theorem subseqFlat_mark (cfg : FQConfig) (nk nv : Int) (e : QEntryF (Nat × Nat))
    (b : List (Nat × Nat)) :
    ((subseqFlat cMark cfg nk nv e b b).1.quantK
        ++ residList (subseqFlat cMark cfg nk nv e b b).1.residK).map Prod.fst
      = (e.quantK ++ residList e.residK).map Prod.fst ++ b.map Prod.fst
    ∧ ((subseqFlat cMark cfg nk nv e b b).1.quantV
        ++ residList (subseqFlat cMark cfg nk nv e b b).1.residV).map Prod.fst
      = (e.quantV ++ residList e.residV).map Prod.fst ++ b.map Prod.fst
    ∧ (∀ p ∈ residList (subseqFlat cMark cfg nk nv e b b).1.residK,
        p ∈ residList e.residK ∨ p ∈ b)
    ∧ (∀ p ∈ residList (subseqFlat cMark cfg nk nv e b b).1.residV,
        p ∈ residList e.residV ∨ p ∈ b) := by
  unfold subseqFlat
  cases hm : mergeCond cfg e.residK <;>
    simp [hm, map_fst_quantize, catResid_alt, residList_none, List.map_append,
      List.append_assoc]

theorem c3_run_inv (R : Nat) (force : Bool) :
    ∀ (sizes : List Nat) (st : QCacheF (Nat × Nat)) (t : Nat),
      (st.entries = [] ∨ ∃ e, st.entries = [e]) →
      (histK st).map Prod.fst = List.range t →
      (histV st).map Prod.fst = List.range t →
      (∀ p ∈ residList (entry0 st).residK, p.2 = 0) →
      (∀ p ∈ residList (entry0 st).residV, p.2 = 0) →
      (((opsOfSizes t sizes).foldl (stepF cMark (cfgFlat R force)) st).entries = []
        ∨ ∃ e2, ((opsOfSizes t sizes).foldl (stepF cMark (cfgFlat R force)) st).entries = [e2])
      ∧ (histK ((opsOfSizes t sizes).foldl (stepF cMark (cfgFlat R force)) st)).map Prod.fst
          = List.range (t + sizes.sum)
      ∧ (histV ((opsOfSizes t sizes).foldl (stepF cMark (cfgFlat R force)) st)).map Prod.fst
          = List.range (t + sizes.sum)
      ∧ (∀ p ∈ residList (entry0 ((opsOfSizes t sizes).foldl
            (stepF cMark (cfgFlat R force)) st)).residK, p.2 = 0)
      ∧ (∀ p ∈ residList (entry0 ((opsOfSizes t sizes).foldl
            (stepF cMark (cfgFlat R force)) st)).residV, p.2 = 0) := by
  intro sizes
  induction sizes with
  | nil =>
    intro st t hsh hK hV hrK hrV
    simp only [opsOfSizes, List.foldl_nil, List.sum_nil, Nat.add_zero]
    exact ⟨hsh, hK, hV, hrK, hrV⟩
  | cons s rest ih =>
    intro st t hsh hK hV hrK hrV
    simp only [opsOfSizes, List.foldl_cons, List.sum_cons]
    have hstep :
        ((stepF cMark (cfgFlat R force) st (0, (idBlock t s, idBlock t s))).entries = []
          ∨ ∃ e2, (stepF cMark (cfgFlat R force) st
              (0, (idBlock t s, idBlock t s))).entries = [e2])
        ∧ (histK (stepF cMark (cfgFlat R force) st
              (0, (idBlock t s, idBlock t s)))).map Prod.fst = List.range (t + s)
        ∧ (histV (stepF cMark (cfgFlat R force) st
              (0, (idBlock t s, idBlock t s)))).map Prod.fst = List.range (t + s)
        ∧ (∀ p ∈ residList (entry0 (stepF cMark (cfgFlat R force) st
              (0, (idBlock t s, idBlock t s)))).residK, p.2 = 0)
        ∧ (∀ p ∈ residList (entry0 (stepF cMark (cfgFlat R force) st
              (0, (idBlock t s, idBlock t s)))).residV, p.2 = 0) := by
      rcases hsh with h0 | ⟨e, he⟩
      · have ht0 : t = 0 := by
          have hemp : histK st = [] := by
            simp [histK, entry0, h0, emptyEntry, residList]
          rw [hemp] at hK
          have := hK.symm
          simpa [List.range_eq_nil] using this
        subst ht0
        have hmark := firstAppendFlat_mark (cfgFlat R force)
          (cfgFlat R force).nbitsKey (cfgFlat R force).nbitsValue (idBlock 0 s)
        have hst : stepF cMark (cfgFlat R force) st (0, (idBlock 0 s, idBlock 0 s)) =
            ⟨[(firstAppendFlat cMark (cfgFlat R force) (cfgFlat R force).nbitsKey
                (cfgFlat R force).nbitsValue (idBlock 0 s) (idBlock 0 s)).1],
             st.seenTokens + (idBlock 0 s).length⟩ := by
          show (updateFlat cMark (cfgFlat R force) st (idBlock 0 s) (idBlock 0 s) 0).1 = _
          rw [updateFlat0_first cMark (cfgFlat R force) rfl st _ _ h0]
        rw [hst]
        have hfst : (idBlock 0 s).map Prod.fst = List.range s := by
          rw [idBlock_fst]
          simp
        refine ⟨Or.inr ⟨_, rfl⟩, ?_, ?_, ?_, ?_⟩
        · simp only [histK, entry0_single]
          rw [hmark.1, hfst]
          simp
        · simp only [histV, entry0_single]
          rw [hmark.2.1, hfst]
          simp
        · simp only [entry0_single]
          intro p hp
          exact idBlock_snd 0 s p (hmark.2.2.1 p hp)
        · simp only [entry0_single]
          intro p hp
          exact idBlock_snd 0 s p (hmark.2.2.2 p hp)
      · have hmark := subseqFlat_mark (cfgFlat R force)
          (cfgFlat R force).nbitsKey (cfgFlat R force).nbitsValue e (idBlock t s)
        have hst : stepF cMark (cfgFlat R force) st (0, (idBlock t s, idBlock t s)) =
            ⟨[(subseqFlat cMark (cfgFlat R force) (cfgFlat R force).nbitsKey
                (cfgFlat R force).nbitsValue e (idBlock t s) (idBlock t s)).1],
             st.seenTokens + (idBlock t s).length⟩ := by
          show (updateFlat cMark (cfgFlat R force) st (idBlock t s) (idBlock t s) 0).1 = _
          rw [updateFlat0_subseq cMark (cfgFlat R force) rfl st e _ _ he]
        have he0 : entry0 st = e := by simp [entry0, he]
        have hKe : (e.quantK ++ residList e.residK).map Prod.fst = List.range t := by
          rw [← hK]
          simp [histK, he0]
        have hVe : (e.quantV ++ residList e.residV).map Prod.fst = List.range t := by
          rw [← hV]
          simp [histV, he0]
        rw [hst]
        refine ⟨Or.inr ⟨_, rfl⟩, ?_, ?_, ?_, ?_⟩
        · simp only [histK, entry0_single]
          rw [hmark.1, hKe, idBlock_fst, List.range_add]
        · simp only [histV, entry0_single]
          rw [hmark.2.1, hVe, idBlock_fst, List.range_add]
        · simp only [entry0_single]
          intro p hp
          rcases hmark.2.2.1 p hp with hin | hin
          · exact hrK p (by simpa [he0] using hin)
          · exact idBlock_snd t s p hin
        · simp only [entry0_single]
          intro p hp
          rcases hmark.2.2.2 p hp with hin | hin
          · exact hrV p (by simpa [he0] using hin)
          · exact idBlock_snd t s p hin
    obtain ⟨hsh2, hK2, hV2, hrK2, hrV2⟩ := hstep
    have hres := ih (stepF cMark (cfgFlat R force) st (0, (idBlock t s, idBlock t s)))
      (t + s) hsh2 hK2 hV2 hrK2 hrV2
    simpa [Nat.add_assoc] using hres

/-- Claim C3: (a) every append after the first on an entry returns
`dequantize(quantized) ++ residual ++ new positions`, in that temporal order,
regardless of whether a merge fires on the call; (b) across any sequence of
appended blocks (any sizes, any residual length, force_quant on or off), the
final logical history holds exactly the appended positions in append order —
the position indices of the history are `0, 1, …, n-1` — with the residual
tier exactly full-precision (zero quantization round trips), losses confined
to the quantized tier. -/
theorem c3_order_preservation {β : Type} (c : QuantCtx β) (cfg : FQConfig)
    (st : QCacheF β) (ks vs : List β) (l : Nat) (e : QEntryF β)
    (hget : st.entries.get? l = some e) (hpl : cfg.perLayerQuant = false)
    (sizes : List Nat) (R : Nat) (force : Bool) :
    ((updateFlat c cfg st ks vs l).2 =
        Except.ok (e.quantK ++ residList e.residK ++ ks,
                   e.quantV ++ residList e.residV ++ vs))
    ∧ (histK (runOpsF cMark (cfgFlat R force) (opsOfSizes 0 sizes))).map Prod.fst
        = List.range sizes.sum
    ∧ (histV (runOpsF cMark (cfgFlat R force) (opsOfSizes 0 sizes))).map Prod.fst
        = List.range sizes.sum
    ∧ (∀ p ∈ residList (entry0 (runOpsF cMark (cfgFlat R force)
          (opsOfSizes 0 sizes))).residK, p.2 = 0)
    ∧ (∀ p ∈ residList (entry0 (runOpsF cMark (cfgFlat R force)
          (opsOfSizes 0 sizes))).residV, p.2 = 0) := by
  have hl : l < st.entries.length := by
    rcases List.get?_eq_some.mp hget with ⟨h, _⟩
    exact h
  have h1 : ¬ st.entries.length < l := by omega
  have h2 : ¬ st.entries.length = l := by omega
  have hget2 : st.entries[l]? = some e := by
    rw [← List.get?_eq_getElem?]
    exact hget
  have ha : (updateFlat c cfg st ks vs l).2 =
      Except.ok (e.quantK ++ residList e.residK ++ ks,
                 e.quantV ++ residList e.residV ++ vs) := by
    unfold updateFlat
    by_cases h0 : l = 0
    · subst h0
      cases hm : mergeCond cfg e.residK <;>
        simp [resolveNbits, hpl, hget2, h1, h2, subseqFlat, hm]
    · cases hm : mergeCond cfg e.residK <;>
        simp [h0, resolveNbits, hpl, hget2, h1, h2, subseqFlat, hm]
  have hbase := c3_run_inv R force sizes emptyCacheF 0 (Or.inl rfl)
    (by simp [histK, entry0, emptyCacheF, emptyEntry, residList])
    (by simp [histV, entry0, emptyCacheF, emptyEntry, residList])
    (by simp [entry0, emptyCacheF, emptyEntry, residList])
    (by simp [entry0, emptyCacheF, emptyEntry, residList])
  have hrun : runOpsF cMark (cfgFlat R force) (opsOfSizes 0 sizes)
      = (opsOfSizes 0 sizes).foldl (stepF cMark (cfgFlat R force)) emptyCacheF := rfl
  rw [hrun]
  refine ⟨ha, ?_, ?_, hbase.2.2.2.1, hbase.2.2.2.2⟩
  · have := hbase.2.1
    simpa using this
  · have := hbase.2.2.1
    simpa using this

/-- Witness for `c3_order_preservation`: a subsequent append on a mixed-tier
entry, and a three-block run of sizes 1, 2, 3. -/
theorem c3_order_preservation_w :
    ((updateFlat cNat (cfgFlat 4 false)
        (⟨[⟨[9], [9], some [3], some [3]⟩], 1⟩ : QCacheF Nat) [5] [5] 0).2 =
      Except.ok (([9] : List Nat) ++ residList (some [3]) ++ [5],
                 ([9] : List Nat) ++ residList (some [3]) ++ [5]))
    ∧ (histK (runOpsF cMark (cfgFlat 4 false) (opsOfSizes 0 [1, 2, 3]))).map Prod.fst
        = List.range ([1, 2, 3] : List Nat).sum
    ∧ (histV (runOpsF cMark (cfgFlat 4 false) (opsOfSizes 0 [1, 2, 3]))).map Prod.fst
        = List.range ([1, 2, 3] : List Nat).sum
    ∧ (∀ p ∈ residList (entry0 (runOpsF cMark (cfgFlat 4 false)
          (opsOfSizes 0 [1, 2, 3]))).residK, p.2 = 0)
    ∧ (∀ p ∈ residList (entry0 (runOpsF cMark (cfgFlat 4 false)
          (opsOfSizes 0 [1, 2, 3]))).residV, p.2 = 0) :=
  c3_order_preservation cNat (cfgFlat 4 false) ⟨[⟨[9], [9], some [3], some [3]⟩], 1⟩
    [5] [5] 0 ⟨[9], [9], some [3], some [3]⟩ (by decide) (by decide) [1, 2, 3] 4 false
